import Mathlib

/-!
Shallow embedding of `hummingbot/data_feed/candles_data_feed/candles_data_feed.py`
(class `BinanceCandlesFeed`).

The candle buffer `self._candles` is a `collections.deque(maxlen=max_records)`;
it is modelled as a `List Candle` (head of the list = oldest record = index 0 of
the deque) together with the capacity `maxRecords`.  `deque.append` evicts the
oldest (leftmost) element when full, `deque.appendleft`/`extendleft` evict the
newest (rightmost) element when full.

Pure fragments of the class (`fetch_candles`' row transformation, the
websocket message handler `_process_websocket_messages`, the mutation step of
`fill_candles_loop`, `is_ready`, `start_network`/`stop_network`, and the
exception-handling policies of the three loops) are translated to Lean
functions below; the two long-lived loops are modelled as a step relation on
the feed state.
-/

/-- One candle record: the eleven values stored per row, in the positional
order of the class attribute `columns = [timestamp, open, low, high, close,
volume, close_time, quote_asset_volume, n_trades, taker_buy_base_volume,
taker_buy_quote_volume]`.  Field `t` is the open time (the key). -/
structure Candle where
  t : Int
  o : Int
  l : Int
  h : Int
  c : Int
  v : Int
  ct : Int
  q : Int
  n : Int
  vb : Int
  vq : Int
  deriving DecidableEq

/-- Strict ordering of candle records by open time. -/
def tLt (a b : Candle) : Prop := a.t < b.t

instance : DecidableRel tLt := fun a b => inferInstanceAs (Decidable (a.t < b.t))

/-- `collections.deque.appendleft` on a deque of capacity `maxlen`: when the
deque is full the rightmost (newest) element is evicted. -/
def pushLeft (maxlen : Nat) (x : α) (buf : List α) : List α :=
  if maxlen = 0 then []
  else if maxlen ≤ buf.length then x :: buf.dropLast
  else x :: buf

/-- `collections.deque.extendleft`: pushes the elements one at a time at the
left end, in the order given. -/
def extendLeft (maxlen : Nat) (xs : List α) (buf : List α) : List α :=
  xs.foldl (fun acc x => pushLeft maxlen x acc) buf

/-- `collections.deque.append` on a deque of capacity `maxlen`: when the deque
is full the leftmost (oldest) element is evicted. -/
def appendTail (maxlen : Nat) (x : α) (buf : List α) : List α :=
  if maxlen = 0 then []
  else if maxlen ≤ buf.length then buf.tail ++ [x]
  else buf ++ [x]

/-- The mutable state shared by the two loops of `BinanceCandlesFeed`:
`self._candles` (with its `maxlen`) and the readiness gate
`self._ws_ready_event`. -/
structure FeedState where
  candles : List Candle
  maxRecords : Nat
  wsReady : Bool
  deriving DecidableEq

/-- Handling of one kline websocket message by `_process_websocket_messages`:
if the buffer is empty the record is appended; otherwise it is appended only
when its open time differs from the tail record's open time
(`timestamp != int(self._candles[-1][0])`); in every case
`self._ws_ready_event.set()` is executed. -/
def processKline (s : FeedState) (k : Candle) : FeedState :=
  match s.candles.getLast? with
  | none => { s with candles := appendTail s.maxRecords k s.candles, wsReady := true }
  | some tl =>
      if k.t ≠ tl.t then
        { s with candles := appendTail s.maxRecords k s.candles, wsReady := true }
      else
        { s with wsReady := true }

/-- The python slice `candles[-(missing_records + 1):-1]` of
`fill_candles_loop`, on a fetched row list of arbitrary length: the last
`m + 1` rows with the final one dropped (clamped like a python slice when
fewer rows are available). -/
def keptRows (m : Nat) (rows : List α) : List α :=
  rows.dropLast.drop (rows.length - (m + 1))

/-- The buffer mutation of one `fill_candles_loop` tick (lines 142-143):
re-read `missing_records = maxlen - len(candles)` and execute
`self._candles.extendleft(candles[-(missing_records + 1):-1][::-1])`. -/
def backfillApply (s : FeedState) (fetched : List Candle) : FeedState :=
  { s with candles :=
      (extendLeft s.maxRecords
        ((keptRows (s.maxRecords - s.candles.length) fetched).reverse)
        s.candles) }

/-- `is_ready`: `len(self._candles) == self._candles.maxlen`. -/
def isReady (s : FeedState) : Bool :=
  s.candles.length == s.maxRecords

/-- The request decision of one `fill_candles_loop` tick (lines 133-139):
when the gate is set and `missing_records > 0` the loop reads
`end_timestamp = self._candles[0][0]` (an `IndexError`, modelled as
`Except.error`, if the buffer is empty) and issues one
`fetch_candles(end_time=end_timestamp, limit=missing_records + 1)` call;
otherwise no request is issued. -/
def tickRequest (s : FeedState) : Except Unit (Option (Int × Nat)) :=
  if s.wsReady = true then
    if 0 < s.maxRecords - s.candles.length then
      match s.candles.head? with
      | some c0 => Except.ok (some (c0.t, (s.maxRecords - s.candles.length) + 1))
      | none => Except.error ()
    else Except.ok none
  else Except.ok none

/-- One atomic mutation of the shared feed state: either the websocket
consumer handles one kline message (assumed, per the spec's ordering
guarantee, to carry an open time no older than the current tail), or the
backfill loop applies the mutation of one tick.  For the backfill step the
fetched response is oldest→newest with strictly increasing open times (the
historical-range interface contract), and every row actually kept by the
slice lies strictly below the recorded boundary, i.e. the head record's open
time. -/
inductive Step : FeedState → FeedState → Prop
  | live (s : FeedState) (k : Candle)
      (hk : ∀ tl ∈ s.candles.getLast?, tl.t ≤ k.t) :
      Step s (processKline s k)
  | backfill (s : FeedState) (fetched : List Candle)
      (hready : s.wsReady = true)
      (hsorted : List.Chain' tLt fetched)
      (hbelow : ∀ r ∈ keptRows (s.maxRecords - s.candles.length) fetched,
          ∀ c0 ∈ s.candles.head?, tLt r c0) :
      Step s (backfillApply s fetched)

/-- States reachable from a freshly constructed feed (`self._candles`
empty, `self._ws_ready_event` unset) by any finite interleaving of live
message handling and backfill mutations. -/
inductive Reachable : FeedState → Prop
  | init (maxR : Nat) : Reachable { candles := [], maxRecords := maxR, wsReady := false }
  | step {s s' : FeedState} : Reachable s → Step s s' → Reachable s'

/-- The buffer invariant together with the auxiliary facts the proofs
thread through the induction: the size bound, strict open-time ordering, and
non-emptiness of the buffer once the gate is set (except in the degenerate
capacity-0 case, where the buffer is always empty). -/
def FeedInv (s : FeedState) : Prop :=
  s.candles.length ≤ s.maxRecords ∧
  List.Chain' tLt s.candles ∧
  (s.wsReady = true → s.candles ≠ [] ∨ s.maxRecords = 0)

/-- The row transformation of `fetch_candles` (line 129):
`np.array(candles)[:, :-1].astype(np.float)` drops the final column of every
row and converts every remaining cell, with `conv` standing for the
floating-point conversion. -/
def fetch_candles_transform (conv : α → β) (rows : List (List α)) : List (List β) :=
  rows.map (fun r => r.dropLast.map conv)

/-- Task bookkeeping of the feed: the three task attributes
(`_fetch_candles_task`, `_fill_candles_task`, `_listen_candles_task`, the
second absent until `start_network` first assigns it) plus, for the model,
the identities of the currently running `fill_candles_loop` and
`listen_for_subscriptions` tasks and a counter for fresh task ids. -/
structure TaskState where
  fetchCandlesTask : Option Nat
  fillCandlesTask : Option Nat
  listenCandlesTask : Option Nat
  runningFillLoops : List Nat
  runningListenLoops : List Nat
  nextTaskId : Nat
  deriving DecidableEq

/-- Task state after `__init__`: `_fetch_candles_task = None`,
`_listen_candles_task = None`, nothing running. -/
def initTaskState : TaskState :=
  { fetchCandlesTask := none, fillCandlesTask := none, listenCandlesTask := none,
    runningFillLoops := [], runningListenLoops := [], nextTaskId := 0 }

/-- `stop_network` (lines 75-81): cancels and clears `_fetch_candles_task`
and `_listen_candles_task` when they are not `None`.  It does not touch
`_fill_candles_task`. -/
def stop_network (ts : TaskState) : TaskState :=
  let ts1 :=
    match ts.fetchCandlesTask with
    | some i => { ts with runningFillLoops := ts.runningFillLoops.erase i,
                          fetchCandlesTask := none }
    | none => ts
  match ts1.listenCandlesTask with
  | some i => { ts1 with runningListenLoops := ts1.runningListenLoops.erase i,
                         listenCandlesTask := none }
  | none => ts1

/-- `start_network` (lines 70-73): awaits `stop_network`, then launches
`fill_candles_loop` storing the task in `_fill_candles_task`, and
`listen_for_subscriptions` storing the task in `_listen_candles_task`. -/
def start_network (ts : TaskState) : TaskState :=
  let ts1 := stop_network ts
  { ts1 with
    fillCandlesTask := some ts1.nextTaskId,
    runningFillLoops := ts1.runningFillLoops ++ [ts1.nextTaskId],
    listenCandlesTask := some (ts1.nextTaskId + 1),
    runningListenLoops := ts1.runningListenLoops ++ [ts1.nextTaskId + 1],
    nextTaskId := ts1.nextTaskId + 2 }

/-- The failure classes distinguished by the exception handlers of the
source: `asyncio.CancelledError`, `ConnectionError`, and any other
exception. -/
inductive StreamExc
  | cancelled
  | connectionError
  | otherError
  deriving DecidableEq

/-- What a loop does after its body raises: re-raise the cancellation to the
caller, or log and run the next iteration after the given number of extra
delay units. -/
inductive LoopAction
  | propagateCancellation
  | continueLoop (delayUnits : Nat)
  deriving DecidableEq

/-- Exception handling of one `fill_candles_loop` iteration (lines 144-150):
`asyncio.CancelledError` is re-raised; any other exception is logged and the
loop continues after the fixed `await self._sleep(1.0)`. -/
def fill_candles_handler : StreamExc → LoopAction
  | .cancelled => .propagateCancellation
  | .connectionError => .continueLoop 1
  | .otherError => .continueLoop 1

/-- Exception handling of one `listen_for_subscriptions` iteration (lines
163-171): `asyncio.CancelledError` is re-raised; `ConnectionError` is logged
as a warning and the loop reconnects with no added delay; any other
exception is logged and the loop sleeps 1.0 before reconnecting. -/
def listen_handler : StreamExc → LoopAction
  | .cancelled => .propagateCancellation
  | .connectionError => .continueLoop 0
  | .otherError => .continueLoop 1

/-- One `listen_for_subscriptions` iteration that ends in the given failure:
the loop action paired with whether the `finally` block attempts to close
the connection (`websocket_assistant and await websocket_assistant.disconnect()`,
which it does exactly when a websocket assistant was obtained). -/
def listen_iteration (wsConnected : Bool) (e : StreamExc) : LoopAction × Bool :=
  (listen_handler e, wsConnected)

/-- What `_subscribe_channels` does when the subscribe step raises. -/
inductive SubscribeFailureAction
  | reraiseCancellation
  | logWaitReadyReraise
  deriving DecidableEq

/-- Exception handling of `_subscribe_channels` (lines 198-206):
`asyncio.CancelledError` is re-raised; any other exception is logged, then
the handler awaits `self._ws_ready_event.wait()` and re-raises. -/
def subscribe_channels_handler : StreamExc → SubscribeFailureAction
  | .cancelled => .reraiseCancellation
  | .connectionError => .logWaitReadyReraise
  | .otherError => .logWaitReadyReraise

/-- Concrete candle with open time 100 (used by the scenario theorems). -/
def k100 : Candle := ⟨100, 1, 2, 3, 4, 5, 6, 7, 8, 9, 10⟩

/-- Concrete candle with open time 200. -/
def k200 : Candle := ⟨200, 11, 12, 13, 14, 15, 16, 17, 18, 19, 20⟩

/-- Concrete candle with open time 300. -/
def k300 : Candle := ⟨300, 21, 22, 23, 24, 25, 26, 27, 28, 29, 30⟩

/-- Concrete candle with the same open time as `k300` but a different close
value. -/
def k300x : Candle := ⟨300, 21, 22, 23, 999, 25, 26, 27, 28, 29, 30⟩

/-- A freshly constructed feed state of the given capacity. -/
def feed0 (maxR : Nat) : FeedState :=
  { candles := [], maxRecords := maxR, wsReady := false }

/-- One concrete 12-column raw response row. -/
def row12 : List Int := [0, 1, 2, 3, 4, 5, 6, 7, 8, 9, 10, 11]

/-- A concrete 5-row, 12-column raw historical response. -/
def rows5x12 : List (List Int) := [row12, row12, row12, row12, row12]

/-- Pushing left never evicts while the deque has free capacity. -/
lemma pushLeft_of_lt {maxlen : Nat} {x : α} {buf : List α}
    (h : buf.length < maxlen) : pushLeft maxlen x buf = x :: buf := by
  unfold pushLeft
  rw [if_neg (by omega), if_neg (by omega)]

/-- `extendleft` of a batch that fits in the free capacity prepends the batch
reversed and evicts nothing. -/
lemma extendLeft_eq_append {maxlen : Nat} :
    ∀ (ys buf : List α), ys.length + buf.length ≤ maxlen →
      extendLeft maxlen ys buf = ys.reverse ++ buf := by
  intro ys
  induction ys with
  | nil => intro buf _; simp [extendLeft]
  | cons y ys ih =>
    intro buf h
    have hb : buf.length < maxlen := by simp [List.length_cons] at h; omega
    have hstep : extendLeft maxlen (y :: ys) buf = extendLeft maxlen ys (y :: buf) := by
      simp [extendLeft, pushLeft_of_lt hb]
    rw [hstep, ih (y :: buf) (by simp at h ⊢; omega)]
    simp

/-- Length of the kept python slice `rows[-(m+1):-1]`. -/
lemma keptRows_length (m : Nat) (rows : List α) :
    (keptRows m rows).length = min m (rows.length - 1) := by
  simp only [keptRows, List.length_drop, List.length_dropLast]
  omega

/-- The kept slice of a strictly sorted response is strictly sorted. -/
lemma keptRows_chain' {m : Nat} {rows : List Candle}
    (h : List.Chain' tLt rows) : List.Chain' tLt (keptRows m rows) :=
  (h.init).drop _

/-- A last element of the tail is a last element of the whole list. -/
lemma getLast?_tail_mem {buf : List α} {x : α} (hx : x ∈ buf.tail.getLast?) :
    x ∈ buf.getLast? := by
  cases buf with
  | nil => simp at hx
  | cons a t =>
    cases t with
    | nil => simp at hx
    | cons b t' => simpa using hx

/-- `deque.append` preserves strict ordering when the new record's open time
lies strictly above the current tail's. -/
lemma appendTail_chain' {maxlen : Nat} {k : Candle} {buf : List Candle}
    (hc : List.Chain' tLt buf) (hk : ∀ x ∈ buf.getLast?, tLt x k) :
    List.Chain' tLt (appendTail maxlen k buf) := by
  unfold appendTail
  split
  · exact List.chain'_nil
  split
  · refine List.chain'_append.mpr ⟨hc.tail, List.chain'_singleton k, ?_⟩
    intro x hx y hy
    simp only [List.head?_cons, Option.mem_some_iff] at hy
    subst hy
    exact hk x (getLast?_tail_mem hx)
  · refine List.chain'_append.mpr ⟨hc, List.chain'_singleton k, ?_⟩
    intro x hx y hy
    simp only [List.head?_cons, Option.mem_some_iff] at hy
    subst hy
    exact hk x hx

/-- The buffer never grows past the capacity under `deque.append`. -/
lemma appendTail_length_le {maxlen : Nat} {k : α} {buf : List α}
    (h : buf.length ≤ maxlen) :
    (appendTail maxlen k buf).length ≤ maxlen := by
  unfold appendTail
  split
  · simp
  split
  · simp only [List.length_append, List.length_tail, List.length_cons,
      List.length_nil]
    omega
  · simp only [List.length_append, List.length_cons, List.length_nil]
    omega

/-- The buffer never shrinks under `deque.append`. -/
lemma le_appendTail_length {maxlen : Nat} {k : α} {buf : List α}
    (h : buf.length ≤ maxlen) :
    buf.length ≤ (appendTail maxlen k buf).length := by
  unfold appendTail
  split
  · simp only [List.length_nil]; omega
  split
  · rename_i hfull
    simp only [List.length_append, List.length_tail, List.length_cons,
      List.length_nil]
    omega
  · simp only [List.length_append, List.length_cons, List.length_nil]
    omega

/-- `deque.append` on a full deque keeps it full. -/
lemma appendTail_length_of_full {maxlen : Nat} {k : α} {buf : List α}
    (h : buf.length = maxlen) :
    (appendTail maxlen k buf).length = maxlen := by
  unfold appendTail
  split
  · simp only [List.length_nil]; omega
  split
  · simp only [List.length_append, List.length_tail, List.length_cons,
      List.length_nil]
    omega
  · simp only [List.length_append, List.length_cons, List.length_nil]
    omega

/-- `deque.append` leaves the buffer non-empty when the capacity is
positive. -/
lemma appendTail_ne_nil {maxlen : Nat} {k : α} {buf : List α}
    (h : maxlen ≠ 0) : appendTail maxlen k buf ≠ [] := by
  unfold appendTail
  rw [if_neg h]
  split <;> simp

/-- `is_ready` unfolded. -/
lemma isReady_eq {s : FeedState} :
    isReady s = true ↔ s.candles.length = s.maxRecords := by
  simp [isReady]

/-- A live message either leaves the buffer unchanged or appends at the
tail. -/
lemma processKline_candles (s : FeedState) (k : Candle) :
    (processKline s k).candles = s.candles ∨
    (processKline s k).candles = appendTail s.maxRecords k s.candles := by
  unfold processKline
  cases s.candles.getLast? with
  | none => exact Or.inr rfl
  | some tl =>
    dsimp only
    split
    · exact Or.inr rfl
    · exact Or.inl rfl

/-- A live message never changes the configured capacity. -/
lemma processKline_maxRecords (s : FeedState) (k : Candle) :
    (processKline s k).maxRecords = s.maxRecords := by
  unfold processKline
  cases s.candles.getLast? with
  | none => rfl
  | some tl =>
    dsimp only
    split <;> rfl

/-- A live message always sets the readiness gate. -/
lemma processKline_wsReady (s : FeedState) (k : Candle) :
    (processKline s k).wsReady = true := by
  unfold processKline
  cases s.candles.getLast? with
  | none => rfl
  | some tl =>
    dsimp only
    split <;> rfl

/-- In a state whose size respects the capacity, the backfill mutation is
exactly a head prepend of the kept slice: nothing is evicted. -/
lemma backfillApply_candles {s : FeedState} (fetched : List Candle)
    (hlen : s.candles.length ≤ s.maxRecords) :
    (backfillApply s fetched).candles =
      keptRows (s.maxRecords - s.candles.length) fetched ++ s.candles := by
  have hkl := keptRows_length (s.maxRecords - s.candles.length) fetched
  show extendLeft s.maxRecords
      ((keptRows (s.maxRecords - s.candles.length) fetched).reverse) s.candles = _
  rw [extendLeft_eq_append _ s.candles (by simp only [List.length_reverse]; omega)]
  rw [List.reverse_reverse]

/-- The invariant is preserved by handling one live kline message whose open
time is no older than the current tail's. -/
lemma processKline_inv {s : FeedState} {k : Candle} (hInv : FeedInv s)
    (hk : ∀ tl ∈ s.candles.getLast?, tl.t ≤ k.t) : FeedInv (processKline s k) := by
  obtain ⟨hlen, hchain, hne⟩ := hInv
  unfold processKline
  cases hl : s.candles.getLast? with
  | none =>
    have hnil : s.candles = [] := List.getLast?_eq_none_iff.mp hl
    refine ⟨?_, ?_, ?_⟩
    · exact appendTail_length_le hlen
    · exact appendTail_chain' hchain (by intro x hx; rw [hl] at hx; cases hx)
    · intro _
      by_cases h0 : s.maxRecords = 0
      · exact Or.inr h0
      · exact Or.inl (appendTail_ne_nil h0)
  | some tl =>
    dsimp only
    split
    · rename_i hne'
      have htl : tl.t < k.t :=
        lt_of_le_of_ne (hk tl (by rw [hl]; rfl)) (fun h => hne' h.symm)
      refine ⟨?_, ?_, ?_⟩
      · exact appendTail_length_le hlen
      · refine appendTail_chain' hchain ?_
        intro x hx
        rw [hl] at hx
        simp only [Option.mem_some_iff] at hx
        subst hx
        exact htl
      · intro _
        by_cases h0 : s.maxRecords = 0
        · exact Or.inr h0
        · exact Or.inl (appendTail_ne_nil h0)
    · refine ⟨hlen, hchain, ?_⟩
      intro _
      refine Or.inl ?_
      intro hnil
      rw [hnil] at hl
      cases hl

/-- The invariant is preserved by one backfill mutation whose kept rows are
strictly sorted and lie strictly below the head record's open time. -/
lemma backfillApply_inv {s : FeedState} {fetched : List Candle} (hInv : FeedInv s)
    (hready : s.wsReady = true) (hsorted : List.Chain' tLt fetched)
    (hbelow : ∀ r ∈ keptRows (s.maxRecords - s.candles.length) fetched,
        ∀ c0 ∈ s.candles.head?, tLt r c0) :
    FeedInv (backfillApply s fetched) := by
  obtain ⟨hlen, hchain, hne⟩ := hInv
  have hkl := keptRows_length (s.maxRecords - s.candles.length) fetched
  have happ := backfillApply_candles fetched hlen
  refine ⟨?_, ?_, ?_⟩
  · show (backfillApply s fetched).candles.length ≤ s.maxRecords
    rw [happ]
    simp only [List.length_append]
    omega
  · show List.Chain' tLt (backfillApply s fetched).candles
    rw [happ]
    refine List.chain'_append.mpr ⟨keptRows_chain' hsorted, hchain, ?_⟩
    intro x hx y hy
    exact hbelow x (List.mem_of_mem_getLast? hx) y hy
  · intro _
    rcases hne hready with hnn | h0
    · refine Or.inl ?_
      intro hcontra
      rw [happ] at hcontra
      exact hnn (List.append_eq_nil.mp hcontra).2
    · exact Or.inr h0

/-- Every reachable state satisfies the invariant. -/
lemma reachable_inv {s : FeedState} (h : Reachable s) : FeedInv s := by
  induction h with
  | init maxR => exact ⟨by simp, List.chain'_nil, by simp⟩
  | step _ hst ih =>
    cases hst with
    | live k hk => exact processKline_inv ih hk
    | backfill fetched hready hsorted hbelow =>
      exact backfillApply_inv ih hready hsorted hbelow

/-- Claim C1: for every reachable state of the feed — any finite interleaving
of live-stream kline handling and backfill prepend mutations, under the
assumptions that live kline open times are no older than the current tail and
that every fetched row kept by backfill lies strictly below the recorded
boundary — the candle buffer holds at most `max_records` records and its open
times are strictly increasing from head (oldest) to tail (newest). -/
theorem candles_buffer_invariant {s : FeedState} (h : Reachable s) :
    s.candles.length ≤ s.maxRecords ∧ List.Chain' tLt s.candles :=
  ⟨(reachable_inv h).1, (reachable_inv h).2.1⟩

/-- Witness for C1: the invariant evaluated at the concrete reachable state
obtained by delivering one live kline to a fresh capacity-3 feed. -/
theorem candles_buffer_invariant_witness :
    (processKline (feed0 3) k100).candles.length ≤ (processKline (feed0 3) k100).maxRecords ∧
    List.Chain' tLt (processKline (feed0 3) k100).candles :=
  candles_buffer_invariant
    (Reachable.step (Reachable.init 3) (Step.live (feed0 3) k100 (by simp [feed0])))

/-- Claim C2: scenario B — from a capacity-3 buffer `[300]` with the gate
set, a backfill tick whose fetch returns `[100, 200, 300]` keeps the last
`missing + 1 = 3` rows minus the boundary-duplicate row `300` and prepends
`[100, 200]`, leaving the buffer `[100, 200, 300]` in ascending order. -/
theorem backfill_scenario_prepend :
    keptRows (3 - ([k300] : List Candle).length) [k100, k200, k300] = [k100, k200] ∧
    (backfillApply ⟨[k300], 3, true⟩ [k100, k200, k300]).candles = [k100, k200, k300] := by
  exact ⟨by decide, by decide⟩

/-- Claim C3 is refuted by the code: `start_network` stores the backfill task
in `_fill_candles_task`, but `stop_network` cancels only
`_fetch_candles_task` (which is always `None`), so a second `start_network`
leaves the first `fill_candles_loop` task running alongside the second —
tasks 0 and 2 both run, violating "at most one backfill loop".  The listen
task is correctly replaced. -/
theorem start_network_restart_leaks_fill_loop :
    (start_network (start_network initTaskState)).runningFillLoops = [0, 2] ∧
    (start_network (start_network initTaskState)).runningListenLoops = [3] ∧
    1 < (start_network (start_network initTaskState)).runningFillLoops.length := by
  exact ⟨by decide, by decide, by decide⟩

/-- Claim C4: processing a live kline whose open time equals the current
tail's performs no mutation — the buffer (hence its size and the tail
record's eleven field values) stays exactly as first observed, whatever the
new message's other fields are — and a second identical-open-time message is
likewise absorbed (idempotence). -/
theorem duplicate_open_time_message_noop {s : FeedState} {k tl : Candle}
    (htl : s.candles.getLast? = some tl) (ht : k.t = tl.t) :
    (processKline s k).candles = s.candles ∧
    (processKline s k).candles.getLast? = some tl ∧
    processKline (processKline s k) k = processKline s k := by
  have hc : processKline s k = { s with wsReady := true } := by
    unfold processKline
    rw [htl]
    dsimp only
    rw [if_neg (by simpa using ht)]
  have htl' : ({ s with wsReady := true } : FeedState).candles.getLast? = some tl := htl
  have hc2 : processKline { s with wsReady := true } k = { s with wsReady := true } := by
    unfold processKline
    rw [htl']
    dsimp only
    rw [if_neg (by simpa using ht)]
  refine ⟨by rw [hc], by rw [hc]; exact htl, ?_⟩
  rw [hc, hc2]

/-- Witness for C4: tail `k300`, incoming message `k300x` with the same open
time but a different close value — buffer and tail record unchanged, second
delivery idempotent. -/
theorem duplicate_open_time_message_noop_witness :
    (processKline ⟨[k300], 3, true⟩ k300x).candles = [k300] ∧
    (processKline ⟨[k300], 3, true⟩ k300x).candles.getLast? = some k300 ∧
    processKline (processKline ⟨[k300], 3, true⟩ k300x) k300x =
      processKline ⟨[k300], 3, true⟩ k300x :=
  duplicate_open_time_message_noop (by decide) (by decide)

/-- Claim C5: no operation of the running feed shrinks the buffer, so from
any reachable state every step preserves `is_ready`: once true it never
becomes false. -/
theorem is_ready_monotone {s s' : FeedState} (hr : Reachable s) (hst : Step s s') :
    s.candles.length ≤ s'.candles.length ∧ (isReady s = true → isReady s' = true) := by
  obtain ⟨hlen, hchain, hne⟩ := reachable_inv hr
  cases hst with
  | live k hk =>
    rcases processKline_candles s k with hc | hc
    · refine ⟨by rw [hc], ?_⟩
      intro hr'
      rw [isReady_eq] at hr' ⊢
      rw [hc, processKline_maxRecords]
      exact hr'
    · refine ⟨by rw [hc]; exact le_appendTail_length hlen, ?_⟩
      intro hr'
      rw [isReady_eq] at hr' ⊢
      rw [hc, processKline_maxRecords]
      exact appendTail_length_of_full hr'
  | backfill fetched hready hsorted hbelow =>
    have happ := backfillApply_candles fetched hlen
    have hkl := keptRows_length (s.maxRecords - s.candles.length) fetched
    constructor
    · rw [happ]
      simp only [List.length_append]
      omega
    · intro hr'
      rw [isReady_eq] at hr' ⊢
      show (backfillApply s fetched).candles.length = s.maxRecords
      rw [happ]
      simp only [List.length_append]
      omega

/-- Witness for C5: a capacity-1 feed becomes ready after one live message
and stays ready across the next live step. -/
theorem is_ready_monotone_witness :
    (processKline (feed0 1) k100).candles.length ≤
      (processKline (processKline (feed0 1) k100) k200).candles.length ∧
    (isReady (processKline (feed0 1) k100) = true →
      isReady (processKline (processKline (feed0 1) k100) k200) = true) :=
  is_ready_monotone
    (Reachable.step (Reachable.init 1) (Step.live (feed0 1) k100 (by simp [feed0])))
    (Step.live (processKline (feed0 1) k100) k200 (by decide))

/-- Claim C6: on every reachable state, a backfill tick with the gate set and
a positive missing count issues exactly one historical request with
`end_time` equal to the head record's open time and `limit = missing + 1`
(the buffer cannot be empty there, so the "now if empty" disjunct of the
claim never applies); with the gate unset or nothing missing, no request is
issued. -/
theorem backfill_tick_request_shape {s : FeedState} (h : Reachable s) :
    (s.wsReady = true → 0 < s.maxRecords - s.candles.length →
      ∃ c0, s.candles.head? = some c0 ∧
        tickRequest s = Except.ok (some (c0.t, (s.maxRecords - s.candles.length) + 1))) ∧
    (¬ (s.wsReady = true ∧ 0 < s.maxRecords - s.candles.length) →
      tickRequest s = Except.ok none) := by
  obtain ⟨hlen, hchain, hne⟩ := reachable_inv h
  constructor
  · intro hready hmiss
    have hnn : s.candles ≠ [] := by
      rcases hne hready with h1 | h0
      · exact h1
      · exfalso; omega
    obtain ⟨c0, rest, hcs⟩ : ∃ c0 rest, s.candles = c0 :: rest := by
      cases hcsx : s.candles with
      | nil => exact absurd hcsx hnn
      | cons a b => exact ⟨a, b, rfl⟩
    refine ⟨c0, by rw [hcs]; rfl, ?_⟩
    unfold tickRequest
    rw [if_pos hready, if_pos hmiss, hcs]
    rfl
  · intro hnot
    unfold tickRequest
    by_cases hready : s.wsReady = true
    · rw [if_pos hready]
      have hm : ¬ 0 < s.maxRecords - s.candles.length := fun hm => hnot ⟨hready, hm⟩
      rw [if_neg hm]
    · rw [if_neg hready]

/-- Witness for C6: a fresh capacity-3 feed after one live kline (`k300`)
issues the request with `end_time = 300` and `limit = 2 + 1`. -/
theorem backfill_tick_request_shape_witness :
    ∃ c0, (processKline (feed0 3) k300).candles.head? = some c0 ∧
      tickRequest (processKline (feed0 3) k300) =
        Except.ok (some (c0.t, ((processKline (feed0 3) k300).maxRecords -
          (processKline (feed0 3) k300).candles.length) + 1)) :=
  (backfill_tick_request_shape
      (Reachable.step (Reachable.init 3) (Step.live (feed0 3) k300 (by simp [feed0])))).1
    rfl (by decide)

/-- Claim C7: on a historical response of `r` rows of uniform width `w`,
`fetch_candles` returns `r` rows of width `w - 1`: the final column of every
row is dropped and every remaining cell is converted (to floating point),
with row order and the positional order of the remaining columns
preserved. -/
theorem fetch_candles_drops_last_column {α β : Type} (conv : α → β)
    (rows : List (List α)) (w : Nat) (hw : ∀ r ∈ rows, r.length = w) :
    (fetch_candles_transform conv rows).length = rows.length ∧
    (∀ r ∈ fetch_candles_transform conv rows, r.length = w - 1) ∧
    (∀ i : Nat, (fetch_candles_transform conv rows)[i]? =
      (rows[i]?).map (fun r => r.dropLast.map conv)) ∧
    (∀ i j : Nat, ∀ r r', rows[i]? = some r →
      (fetch_candles_transform conv rows)[i]? = some r' → j < w - 1 →
      r'[j]? = (r[j]?).map conv) := by
  refine ⟨by simp [fetch_candles_transform], ?_, ?_, ?_⟩
  · intro r hr
    simp only [fetch_candles_transform, List.mem_map] at hr
    obtain ⟨r0, hr0, rfl⟩ := hr
    simp [hw r0 hr0]
  · intro i
    simp [fetch_candles_transform]
  · intro i j r r' hri hri' hj
    have hmem : r ∈ rows := List.getElem?_mem hri
    have heq : (fetch_candles_transform conv rows)[i]? = some (r.dropLast.map conv) := by
      simp [fetch_candles_transform, hri]
    rw [heq] at hri'
    have hr' : r' = r.dropLast.map conv := (Option.some.inj hri').symm
    subst hr'
    rw [List.getElem?_map, List.getElem?_dropLast, if_pos (by rw [hw r hmem]; omega)]

/-- Witness for C7: a concrete 5-row, 12-column response. -/
theorem fetch_candles_drops_last_column_witness :
    (fetch_candles_transform (fun n : Int => n) rows5x12).length = rows5x12.length ∧
    (∀ r ∈ fetch_candles_transform (fun n : Int => n) rows5x12, r.length = 12 - 1) ∧
    (∀ i : Nat, (fetch_candles_transform (fun n : Int => n) rows5x12)[i]? =
      (rows5x12[i]?).map (fun r => r.dropLast.map (fun n : Int => n))) ∧
    (∀ i j : Nat, ∀ r r', rows5x12[i]? = some r →
      (fetch_candles_transform (fun n : Int => n) rows5x12)[i]? = some r' → j < 12 - 1 →
      r'[j]? = (r[j]?).map (fun n : Int => n)) :=
  fetch_candles_drops_last_column (fun n : Int => n) rows5x12 12 (by decide)

/-- Claim C8: a cancellation signal raised inside the backfill loop, the
listen loop, or the channel-subscribe step is re-raised to the caller,
never swallowed by the generic handlers and never retried. -/
theorem cancellation_always_propagates :
    fill_candles_handler StreamExc.cancelled = LoopAction.propagateCancellation ∧
    listen_handler StreamExc.cancelled = LoopAction.propagateCancellation ∧
    subscribe_channels_handler StreamExc.cancelled =
      SubscribeFailureAction.reraiseCancellation :=
  ⟨rfl, rfl, rfl⟩

/-- Claim C9: a connection-level failure during streaming makes the
supervisor attempt to close the connection and reconnect with zero added
delay; a non-connection failure in the subscribe step is logged, waits on the
readiness gate, and is re-raised, after which the listen loop waits exactly
one delay unit (and still attempts the close) before the next connect. -/
theorem reconnect_retry_delay_policy :
    listen_iteration true StreamExc.connectionError = (LoopAction.continueLoop 0, true) ∧
    subscribe_channels_handler StreamExc.otherError =
      SubscribeFailureAction.logWaitReadyReraise ∧
    listen_iteration true StreamExc.otherError = (LoopAction.continueLoop 1, true) :=
  ⟨rfl, rfl, rfl⟩

/-- Claim C10: with the missing count re-read atomically before the mutation,
the number of rows prepended by a backfill tick is
`min (missing, fetched − 1)`, never exceeding the free capacity, so the
`extendleft` evicts nothing: the mutation is a pure head prepend and every
record present before it is still present after it. -/
theorem backfill_prepend_no_eviction (s : FeedState) (fetched : List Candle)
    (hlen : s.candles.length ≤ s.maxRecords) :
    (keptRows (s.maxRecords - s.candles.length) fetched).length =
      min (s.maxRecords - s.candles.length) (fetched.length - 1) ∧
    (keptRows (s.maxRecords - s.candles.length) fetched).length ≤
      s.maxRecords - s.candles.length ∧
    (backfillApply s fetched).candles =
      keptRows (s.maxRecords - s.candles.length) fetched ++ s.candles ∧
    ∀ c ∈ s.candles, c ∈ (backfillApply s fetched).candles := by
  have hkl := keptRows_length (s.maxRecords - s.candles.length) fetched
  have happ := backfillApply_candles fetched hlen
  refine ⟨hkl, by omega, happ, ?_⟩
  intro c hc
  rw [happ]
  exact List.mem_append_right _ hc

/-- Witness for C10: the scenario-B state and fetch. -/
theorem backfill_prepend_no_eviction_witness :
    (keptRows ((⟨[k300], 3, true⟩ : FeedState).maxRecords -
        (⟨[k300], 3, true⟩ : FeedState).candles.length) [k100, k200, k300]).length =
      min ((⟨[k300], 3, true⟩ : FeedState).maxRecords -
        (⟨[k300], 3, true⟩ : FeedState).candles.length) ([k100, k200, k300].length - 1) ∧
    (keptRows ((⟨[k300], 3, true⟩ : FeedState).maxRecords -
        (⟨[k300], 3, true⟩ : FeedState).candles.length) [k100, k200, k300]).length ≤
      (⟨[k300], 3, true⟩ : FeedState).maxRecords -
        (⟨[k300], 3, true⟩ : FeedState).candles.length ∧
    (backfillApply ⟨[k300], 3, true⟩ [k100, k200, k300]).candles =
      keptRows ((⟨[k300], 3, true⟩ : FeedState).maxRecords -
        (⟨[k300], 3, true⟩ : FeedState).candles.length) [k100, k200, k300] ++
        (⟨[k300], 3, true⟩ : FeedState).candles ∧
    ∀ c ∈ (⟨[k300], 3, true⟩ : FeedState).candles,
      c ∈ (backfillApply ⟨[k300], 3, true⟩ [k100, k200, k300]).candles :=
  backfill_prepend_no_eviction ⟨[k300], 3, true⟩ [k100, k200, k300] (by decide)
